import Mathlib

/-!
Verification development for the `mcp-server-obsidian` kanban engine.

This file gives a shallow embedding, in Lean 4, of the pure core of the
TypeScript sources:

* `src/utils/input-validator.ts` — `validateItemText`, `validateColumnName`;
* `src/parsers/kanban.ts` — `parseKanban`, `serializeKanban`;
* `src/utils/path-validator.ts` — `validateVaultPath` (async variant);
* the pure board transformations inside the tool handlers
  `kanbanItemReorder`, `kanbanColumnRemove`, `kanbanArchiveDone`,
  `kanbanMerge`.

JavaScript string primitives (`trim`, `split('\n')`, `join('\n')`, the two
line regexes, UTF-16 `.length`, `includes`) are modelled explicitly on
`List Char`; `node:path` is modelled with POSIX semantics (the host family
the test-suite targets on CI); the filesystem is an abstract structure
(`Fs`) supplying `access`/`realpath`.  The frontmatter splitter of the
external `gray-matter` dependency is modelled for the fragment the codec
produces and consumes: a leading `---` line, plain `key: value` lines, a
closing `---` line.  Unicode NFC normalization is the identity on the
ASCII strings considered here and is modelled as the identity function.
-/

/-- The character class of JavaScript's `\s` regex class and of
`String.prototype.trim` (WhiteSpace ∪ LineTerminator). -/
def jsWs (c : Char) : Bool :=
  let n := c.toNat
  n = 0x20 || n = 0x09 || n = 0x0A || n = 0x0D || n = 0x0B || n = 0x0C ||
  n = 0xA0 || n = 0x1680 || (0x2000 ≤ n && n ≤ 0x200A) ||
  n = 0x2028 || n = 0x2029 || n = 0x202F || n = 0x205F || n = 0x3000 || n = 0xFEFF

/-- What JavaScript's regex `.` matches (without the `s` flag): any character
except the four LineTerminators. -/
def jsDot (c : Char) : Bool :=
  !(c.toNat = 0x0A || c.toNat = 0x0D || c.toNat = 0x2028 || c.toNat = 0x2029)

/-- Left-and-right trim on a character list, with the JS whitespace class. -/
def trimList (l : List Char) : List Char :=
  ((l.dropWhile jsWs).reverse.dropWhile jsWs).reverse

/-- Model of JavaScript `String.prototype.trim`. -/
def jsTrim (s : String) : String := ⟨trimList s.data⟩

/-- Model of JavaScript `String.prototype.length`: UTF-16 code units. -/
def utf16Len (s : String) : Nat :=
  s.data.foldl (fun a c => a + (if c.toNat < 0x10000 then 1 else 2)) 0

/-- Model of JavaScript `s.includes(c)` for a single character `c`. -/
def hasChar (s : String) (c : Char) : Bool := s.data.any (· = c)

/-- `startsList pat l`: does `l` start with `pat`? -/
def startsList : List Char → List Char → Bool
  | [], _ => true
  | _ :: _, [] => false
  | p :: ps, c :: cs => p = c && startsList ps cs

/-- Model of JavaScript `s.startsWith(pat)`. -/
def jsStartsWith (s pat : String) : Bool := startsList pat.data s.data

/-- Split a character list at every occurrence of `sep`
(JavaScript `s.split(sep)`; the result is never empty). -/
def splitCharList (sep : Char) : List Char → List (List Char)
  | [] => [[]]
  | c :: rest =>
    let r := splitCharList sep rest
    if c = sep then [] :: r
    else (c :: r.headD []) :: r.tail

/-- Join character lists with `sep` between them (JavaScript `parts.join(sep)`). -/
def joinCharList (sep : Char) : List (List Char) → List Char
  | [] => []
  | [l] => l
  | l :: ls => l ++ sep :: joinCharList sep ls

/-- Model of JavaScript `s.split('\n')`. -/
def splitNl (s : String) : List String := (splitCharList '\n' s.data).map (⟨·⟩)

/-- Model of JavaScript `parts.join('\n')`. -/
def joinNl (lines : List String) : String := ⟨joinCharList '\n' (lines.map (·.data))⟩

/-! ## Data model (src/types/board.ts) -/

/-- One task/checkbox entry (`Item` in `src/types/board.ts`). -/
structure Item where
  text : String
  completed : Bool
  deriving Repr, DecidableEq

/-- A named, ordered group of items (`Column` in `src/types/board.ts`). -/
structure Column where
  name : String
  items : List Item
  deriving Repr, DecidableEq

/-- A kanban board.  `settings` models the JS settings object as an ordered
association list with unique keys (JS object insertion-order semantics). -/
structure Board where
  path : String
  settings : List (String × String)
  columns : List Column
  deriving Repr, DecidableEq

/-- JS object property write `m[k] = v`: replace in place if the key exists,
otherwise append (insertion-order semantics). -/
def jsSet (m : List (String × String)) (k v : String) : List (String × String) :=
  if m.any (·.1 = k) then m.map (fun p => if p.1 = k then (k, v) else p)
  else m ++ [(k, v)]

/-- JS object property read `m[k]`. -/
def jsLookup (m : List (String × String)) (k : String) : Option String :=
  (m.find? (·.1 = k)).map (·.2)

/-! ## Input validators (src/utils/input-validator.ts) -/

/-- `containsNullByte` from `src/utils/input-validator.ts`. -/
def containsNullByte (text : String) : Bool := hasChar text '\x00'

/-- `containsControlCharacters` from `src/utils/input-validator.ts`:
tab is always allowed; LF and CR are allowed only when `allowNewlines`;
every other code unit below 32 is rejected. -/
def containsControlCharacters (text : String) (allowNewlines : Bool) : Bool :=
  text.data.any (fun c =>
    let code := c.toNat
    if code = 9 then false
    else if allowNewlines && (code = 10 || code = 13) then false
    else decide (code < 32))

/-- `validateItemText` from `src/utils/input-validator.ts`. -/
def validateItemText (text : String) : Except String String :=
  if containsNullByte text then .error "Item text contains null byte"
  else if containsControlCharacters text true then
    .error "Item text contains forbidden control characters (ASCII < 32)"
  else if hasChar (jsTrim text) '\n' || hasChar (jsTrim text) '\r' then
    .error "Item text cannot contain newlines (breaks markdown list items)"
  else if utf16Len (jsTrim text) = 0 then .error "Item text cannot be empty"
  else if 10240 < utf16Len (jsTrim text) then
    .error "Item text exceeds maximum length (10240 characters)"
  else .ok (jsTrim text)

/-- `validateColumnName` from `src/utils/input-validator.ts`.  Unlike
`validateItemText`, the newline check runs on the raw string, before
trimming. -/
def validateColumnName (name : String) : Except String String :=
  if containsNullByte name then .error "Column name contains null byte"
  else if hasChar name '\n' || hasChar name '\r' then
    .error "Column name cannot contain newlines (corrupts markdown headers)"
  else if containsControlCharacters name false then
    .error "Column name contains forbidden control characters (ASCII < 32)"
  else if utf16Len (jsTrim name) = 0 then .error "Column name cannot be empty"
  else if 200 < utf16Len (jsTrim name) then
    .error "Column name exceeds maximum length (200 characters)"
  else .ok (jsTrim name)

/-! ## Document codec (src/parsers/kanban.ts) -/

/-- Split a character list at the first `':'` (used by the frontmatter model). -/
def splitAtColon : List Char → Option (List Char × List Char)
  | [] => none
  | c :: rest =>
    if c = ':' then some ([], rest)
    else (splitAtColon rest).map (fun p => (c :: p.1, p.2))

/-- Parse the lines between the frontmatter delimiters into a key/value
object.  This models the external `gray-matter`/YAML dependency on the
fragment the codec emits and consumes: blank lines are skipped and each
remaining line is a plain `key: value` scalar pair. -/
def fmStep (m : List (String × String)) (line : String) : List (String × String) :=
  if (jsTrim line).data = [] then m
  else match splitAtColon line.data with
    | some (k, v) => jsSet m (jsTrim ⟨k⟩) (jsTrim ⟨v⟩)
    | none => m

def parseFrontmatterLines (lines : List String) : List (String × String) :=
  lines.foldl fmStep []

/-- First index satisfying the test (models `Array.prototype.findIndex`
returning an index rather than `-1`). -/
def findIdxFrom (p : String → Bool) : List String → Option Nat
  | [] => none
  | x :: xs => if p x then some 0 else (findIdxFrom p xs).map (· + 1)

/-- Model of `matter(content)` from `gray-matter` on the simple fragment used
by this codec: if the first line is `---` and a later line is `---`, the lines
between them are the frontmatter data and the lines after the closing
delimiter are the body; otherwise the data is empty and the body is the whole
input.  (The real library keeps one leading newline on the body; the kanban
parser treats blank lines as inert, so the behaviours agree.) -/
def matterSplit (content : String) : List (String × String) × String :=
  match splitNl content with
  | [] => ([], content)
  | first :: rest =>
    if first = "---" then
      match findIdxFrom (· = "---") rest with
      | some j => (parseFrontmatterLines (rest.take j), joinNl (rest.drop (j + 1)))
      | none => ([], content)
    else ([], content)

/-- Length of the maximal `\s` run at the front of the list. -/
def wsRunLen (l : List Char) : Nat := (l.takeWhile jsWs).length

/-- The part of the header regex after the two hashes: `\s+(.+)$` with a
greedy `\s+` that takes the maximal whitespace run still leaving a non-empty
dot-matching remainder. -/
def headerTail (rest : List Char) : Option String :=
  if wsRunLen rest = 0 then none
  else if wsRunLen rest < rest.length then
    if (rest.drop (wsRunLen rest)).all jsDot then some ⟨rest.drop (wsRunLen rest)⟩ else none
  else if 2 ≤ wsRunLen rest then
    if (rest.drop (wsRunLen rest - 1)).all jsDot then some ⟨rest.drop (wsRunLen rest - 1)⟩
    else none
  else none

/-- Model of `line.match(/^##\s+(.+)$/)`, returning the captured group. -/
def matchHeader (line : String) : Option String :=
  match line.data with
  | '#' :: '#' :: rest => headerTail rest
  | _ => none

/-- The part of the item regex after the bracket: `\s+(.*)$`. -/
def itemTail2 (b : Char) (rest2 : List Char) : Option (Bool × String) :=
  if b = ' ' || b = 'x' then
    if wsRunLen rest2 = 0 then none
    else if (rest2.drop (wsRunLen rest2)).all jsDot then
      some (b = 'x', ⟨rest2.drop (wsRunLen rest2)⟩)
    else none
  else none

/-- The part of the item regex after the dash: `\s+\[([ x])\]\s+(.*)$`. -/
def itemTail1 (rest1 : List Char) : Option (Bool × String) :=
  if wsRunLen rest1 = 0 then none
  else match rest1.drop (wsRunLen rest1) with
    | '[' :: b :: ']' :: rest2 => itemTail2 b rest2
    | _ => none

/-- Model of `line.match(/^-\s+\[([ x])\]\s+(.*)$/)`, returning
(`bracket content = 'x'`, captured text). -/
def matchItem (line : String) : Option (Bool × String) :=
  match line.data with
  | '-' :: rest1 => itemTail1 rest1
  | _ => none

/-- The line scan of `parseKanban` (the `for (const line of lines)` loop):
a header line pushes the open column and opens a new one; an item line under
an open column appends an item; a line whose trimmed form starts with `%%`
ends the scan; all other lines are inert.  The trailing open column is pushed
at the end. -/
def parseKanbanLines : List String → Option Column → List Column → List Column
  | [], cur, acc => acc ++ cur.toList
  | line :: ls, cur, acc =>
    match matchHeader line with
    | some cap => parseKanbanLines ls (some ⟨jsTrim cap, []⟩) (acc ++ cur.toList)
    | none =>
      match matchItem line, cur with
      | some bt, some c =>
          parseKanbanLines ls (some ⟨c.name, c.items ++ [⟨jsTrim bt.2, bt.1⟩]⟩) acc
      | _, _ =>
        if jsStartsWith (jsTrim line) "%%" then acc ++ cur.toList
        else parseKanbanLines ls cur acc

/-- The settings object built by `parseKanban`:
`{'kanban-plugin': frontmatter['kanban-plugin'] || 'basic', ...frontmatter}`. -/
def buildSettings (fm : List (String × String)) : List (String × String) :=
  let dflt := match jsLookup fm "kanban-plugin" with
    | some v => if v = "" then "basic" else v
    | none => "basic"
  fm.foldl (fun m p => jsSet m p.1 p.2) [("kanban-plugin", dflt)]

/-- `parseKanban` from `src/parsers/kanban.ts`. -/
def parseKanban (content : String) : Board :=
  let fmBody := matterSplit content
  { path := ""
    settings := buildSettings fmBody.1
    columns := parseKanbanLines (splitNl fmBody.2) none [] }

/-- The checkbox marker emitted by `serializeKanban`. -/
def checkbox (completed : Bool) : String := if completed then "[x]" else "[ ]"

/-- One serialized item line: `- [x] text` / `- [ ] text`. -/
def itemLine (i : Item) : String := "- " ++ checkbox i.completed ++ " " ++ i.text

/-- The serialized lines of one column: header, blank, items, blank. -/
def columnLines (c : Column) : List String :=
  ("## " ++ c.name) :: "" :: (c.items.map itemLine ++ [""])

/-- Serialized lines of all columns, in order. -/
def columnsLines : List Column → List String
  | [] => []
  | c :: rest => columnLines c ++ columnsLines rest

/-- JSON escaping of one character (model of `JSON.stringify` on strings). -/
def jsonEscapeChar (c : Char) : List Char :=
  if c = '"' then ['\\', '"']
  else if c = '\\' then ['\\', '\\']
  else if c = '\n' then ['\\', 'n']
  else if c = '\r' then ['\\', 'r']
  else if c = '\t' then ['\\', 't']
  else if c = '\x08' then ['\\', 'b']
  else if c = '\x0c' then ['\\', 'f']
  else if c.toNat < 32 then
    ['\\', 'u', '0', '0', Nat.digitChar (c.toNat / 16), Nat.digitChar (c.toNat % 16)]
  else [c]

/-- Model of `JSON.stringify` on a string. -/
def jsonString (s : String) : String :=
  "\"" ++ ⟨(s.data.map jsonEscapeChar).flatten⟩ ++ "\""

/-- JS `Array.prototype.join(sep)` on plain strings. -/
def joinWith (sep : String) : List String → String
  | [] => ""
  | [x] => x
  | x :: xs => x ++ sep ++ joinWith sep xs

/-- Model of `JSON.stringify` on the settings object. -/
def jsonStringify (m : List (String × String)) : String :=
  "\x7b" ++ joinWith "," (m.map (fun p => jsonString p.1 ++ ":" ++ jsonString p.2)) ++ "\x7d"

/-- The `parts` array assembled by `serializeKanban`, in order. -/
def serializeLines (b : Board) : List String :=
  ["---", "", "kanban-plugin: " ++ (jsLookup b.settings "kanban-plugin").getD "undefined",
   "", "---", ""]
  ++ columnsLines b.columns
  ++ ["%% kanban:settings", "```", jsonStringify b.settings, "```", "%%", ""]

/-- `serializeKanban` from `src/parsers/kanban.ts` (`parts.join('\n')`). -/
def serializeKanban (b : Board) : String := joinNl (serializeLines b)

/-! ## Path validation (src/utils/path-validator.ts)

`node:path` is modelled with POSIX semantics.  The filesystem is abstract:
`access` models a successful `access(p, F_OK)` probe and `realpath` models
`realpath(p)` (`none` = the call fails). -/

/-- Abstract filesystem used by the path validator. -/
structure Fs where
  access : String → Bool
  realpath : String → Option String

/-- Unicode NFC normalization (`String.prototype.normalize('NFC')`).
The identity on the ASCII strings considered in this development. -/
def nfcNormalize (s : String) : String := s

/-- POSIX `path.isAbsolute`. -/
def posixIsAbsolute (s : String) : Bool :=
  match s.data with
  | '/' :: _ => true
  | _ => false

/-- The component stack of a POSIX path after normalization of an absolute
path: empty components and `.` are dropped, `..` pops (and is dropped at the
root). -/
def posixAbsStack (s : String) : List (List Char) :=
  (splitCharList '/' s.data).foldl
    (fun st comp =>
      if comp = [] then st
      else if comp = ['.'] then st
      else if comp = ['.', '.'] then st.dropLast
      else st ++ [comp]) []

/-- POSIX `path.normalize`/`path.resolve` output for an absolute path:
`/` followed by the normalized components. -/
def posixNormAbs (s : String) : String := ⟨'/' :: joinCharList '/' (posixAbsStack s)⟩

/-- POSIX `path.resolve(base, target)` where `base` is absolute. -/
def posixResolve (base target : String) : String :=
  if posixIsAbsolute target then posixNormAbs target
  else posixNormAbs (base ++ "/" ++ target)

/-- Drop the longest shared leading run of two component lists. -/
def dropShared : List (List Char) → List (List Char) → List (List Char) × List (List Char)
  | a :: as, b :: bs => if a = b then dropShared as bs else (a :: as, b :: bs)
  | as, bs => (as, bs)

/-- POSIX `path.relative` on absolute paths: `..` for every remaining
component of `from`, then the remaining components of `to`. -/
def posixRelative (f t : String) : String :=
  let p := dropShared (posixAbsStack f) (posixAbsStack t)
  ⟨joinCharList '/' (List.replicate p.1.length ['.', '.'] ++ p.2)⟩

/-- `validateVaultPath` from `src/utils/path-validator.ts` (async variant),
over the abstract filesystem `fs`.  The `try { access; realpath; … }` block is
modelled by consulting `fs.realpath` only when `fs.access` succeeds; any
failure of either call returns the normalized candidate, as in the source's
`catch` branch. -/
def validateVaultPath (fs : Fs) (vaultPath targetPath : String) : Except String String :=
  if vaultPath = "" then .error "Vault path must be a non-empty string"
  else if targetPath = "" then .error "Target path must be a non-empty string"
  else if hasChar vaultPath '\x00' || hasChar targetPath '\x00' then
    .error "Path contains null byte"
  else
    let normalizedVault := nfcNormalize vaultPath
    let normalizedTarget := nfcNormalize targetPath
    if !posixIsAbsolute normalizedVault then .error "Vault path must be absolute"
    else match fs.realpath normalizedVault with
    | none => .error ("Vault path does not exist or is not accessible: " ++ normalizedVault)
    | some canonicalVault =>
      let candidatePath :=
        if posixIsAbsolute normalizedTarget then posixNormAbs normalizedTarget
        else posixResolve canonicalVault normalizedTarget
      let normalizedCandidate := posixNormAbs candidatePath
      let relativePath := posixRelative canonicalVault normalizedCandidate
      if jsStartsWith relativePath "../" || posixIsAbsolute relativePath then
        .error ("Path escapes vault boundaries: " ++ targetPath ++ " -> " ++ normalizedCandidate)
      else if relativePath = ".." then
        .error ("Path escapes vault boundaries: " ++ targetPath)
      else if 4096 < utf16Len normalizedCandidate then
        .error ("Path exceeds maximum length (4096): " ++ toString (utf16Len normalizedCandidate) ++ " chars")
      else
        match (if fs.access normalizedCandidate then fs.realpath normalizedCandidate else none) with
        | none => .ok normalizedCandidate
        | some canonicalTarget =>
          let relativeCanonical := posixRelative canonicalVault canonicalTarget
          if jsStartsWith relativeCanonical "../" || posixIsAbsolute relativeCanonical then
            .error ("Symlink escapes vault boundaries: " ++ targetPath ++ " -> " ++ canonicalTarget)
          else if relativeCanonical = ".." then
            .error ("Symlink escapes vault boundaries: " ++ targetPath)
          else .ok canonicalTarget

/-! ## Mutation operations (tool handlers)

Each tool handler is `read → pure transformation → write`; the embeddings
below are the pure transformations, with the `throw`s modelled as
`Except.error` carrying the thrown message. -/

/-- `Array.prototype.findIndex` + `splice(idx, 1)` over items: remove the
first item whose text matches, returning it and the remaining list. -/
def removeFirstItem : List Item → String → Option (Item × List Item)
  | [], _ => none
  | i :: rest, text =>
    if i.text = text then some (i, rest)
    else (removeFirstItem rest text).map (fun p => (p.1, i :: p.2))

/-- JS `arr.splice(idx, 0, a)`: insert at position `idx` (callers clamp). -/
def spliceInsert (l : List α) (idx : Nat) (a : α) : List α :=
  l.take idx ++ a :: l.drop idx

/-- Apply `f` to the first column with the given name (models in-place
mutation of the object returned by `columns.find(...)`). -/
def updateFirstColumn : List Column → String → (Column → Column) → List Column
  | [], _, _ => []
  | c :: rest, name, f =>
    if c.name = name then f c :: rest
    else c :: updateFirstColumn rest name f

/-- Remove the first column with the given name (models
`findIndex` + `splice(idx, 1)` over columns), returning it and the rest. -/
def removeFirstColumn : List Column → String → Option (Column × List Column)
  | [], _ => none
  | c :: rest, name =>
    if c.name = name then some (c, rest)
    else (removeFirstColumn rest name).map (fun p => (p.1, c :: p.2))

/-- The not-found message for a column lookup, as thrown by the tools. -/
def columnNotFoundMsg (name : String) (b : Board) : String :=
  "Column \"" ++ name ++ "\" not found in board. Available columns: " ++
    String.intercalate ", " (b.columns.map (·.name))

/-- The pure core of `kanbanItemReorder` (`kanban_item_reorder` tool):
find the column by name, remove the first item with the given text, clamp the
requested position to the length measured after removal, and reinsert.
`position` is a `Nat` because the tool's zod schema enforces
`z.number().int().min(0)`. -/
def kanbanItemReorder (b : Board) (columnName text : String) (position : Nat) :
    Except String Board :=
  match b.columns.find? (·.name = columnName) with
  | none => .error (columnNotFoundMsg columnName b)
  | some col =>
    match removeFirstItem col.items text with
    | none =>
      .error ("Item \"" ++ text ++ "\" not found in column \"" ++ columnName ++ "\"")
    | some (item, remaining) =>
      .ok { b with columns :=
        (updateFirstColumn b.columns columnName
          (fun _ => { col with items := spliceInsert remaining (min position remaining.length) item })) }

/-- The pure core of `kanbanColumnRemove` (`kanban_column_remove` tool).
`targetColumn = none` models an absent argument; the source's falsy test
`!validated.targetColumn` also treats the empty string as absent.  The checks
run in source order: column lookup, item-count gate, target lookup,
self-reference, move, splice. -/
def kanbanColumnRemove (b : Board) (name : String) (targetColumn : Option String) :
    Except String Board :=
  match removeFirstColumn b.columns name with
  | none => .error (columnNotFoundMsg name b)
  | some (col, restCols) =>
    if col.items.length > 0 then
      match (match targetColumn with
             | some t => if t = "" then none else some t
             | none => none) with
      | none =>
        .error ("Column \"" ++ name ++ "\" contains " ++ toString col.items.length ++
          " item(s). Specify targetColumn to move items before removal.")
      | some t =>
        if b.columns.all (fun c => !(c.name = t)) then
          .error ("Target column \"" ++ t ++ "\" not found. Available columns: " ++
            String.intercalate ", " (b.columns.map (·.name)))
        else if t = name then
          .error "Cannot move items to the same column being removed"
        else
          .ok { b with columns :=
            updateFirstColumn restCols t (fun c => { c with items := c.items ++ col.items }) }
    else .ok { b with columns := restCols }

/-- The archive-column name after zod's `.default('Archive')` and the
handler's `validated.archiveColumn || 'Archive'` (empty string is falsy). -/
def resolveArchiveName (archiveColumn : Option String) : String :=
  match archiveColumn with
  | some s => if s = "" then "Archive" else s
  | none => "Archive"

/-- The pure core of `kanbanArchiveDone` (`kanban_archive_done` tool):
find-or-create the archive column, collect the completed items of every other
column in board order, remove them from their columns, and append them to the
archive column. -/
def kanbanArchiveDone (b : Board) (archiveColumn : Option String) : Board :=
  let archiveColumnName := resolveArchiveName archiveColumn
  let cols0 :=
    if b.columns.any (·.name = archiveColumnName) then b.columns
    else b.columns ++ [⟨archiveColumnName, []⟩]
  let archivedItems := cols0.foldl
    (fun acc c => if c.name = archiveColumnName then acc else acc ++ c.items.filter (·.completed)) []
  let cols1 := cols0.map (fun c =>
    if c.name = archiveColumnName then c
    else { c with items := c.items.filter (fun i => !i.completed) })
  { b with columns :=
      (updateFirstColumn cols1 archiveColumnName
        (fun c => { c with items := c.items ++ archivedItems })) }

/-- The per-item append loop of `kanbanMerge`: append each source item whose
text is not already present in the (growing) target item list. -/
def mergeColumnItems (tgt src : List Item) : List Item :=
  src.foldl (fun acc item =>
    if acc.any (·.text = item.text) then acc else acc ++ [item]) tgt

/-- Merging one source column into the target column list: find-or-create the
column with the same name, then append the non-duplicate items. -/
def mergeOneColumn (cols : List Column) (sc : Column) : List Column :=
  if cols.any (·.name = sc.name) then
    updateFirstColumn cols sc.name (fun c => { c with items := mergeColumnItems c.items sc.items })
  else cols ++ [⟨sc.name, mergeColumnItems [] sc.items⟩]

/-- The pure merge of `kanbanMerge` (`kanban_merge` tool): fold every column
of every source board, in order, into the target board's columns. -/
def mergeBoards (target : Board) (sources : List Board) : Board :=
  { target with columns :=
      sources.foldl (fun cols s => s.columns.foldl mergeOneColumn cols) target.columns }

/-- The fresh board substituted by `kanbanMerge` when reading the target
fails (`catch` branch). -/
def freshMergeTarget (targetPath : String) : Board :=
  { settings := [("kanban-plugin", "basic")], columns := [], path := targetPath }

/-- `kanbanMerge` at the file level: `targetRead` is the result of
`readKanbanFile(targetPath)` (content on success), the sources are the raw
contents of the source boards, and the returned pair is the merged board and
the text handed to `writeKanbanFile`. -/
def kanbanMerge (targetRead : Except String String) (sourceContents : List String)
    (targetPath : String) : Board × String :=
  let targetBoard := match targetRead with
    | .ok content => { parseKanban content with path := targetPath }
    | .error _ => freshMergeTarget targetPath
  let merged := mergeBoards targetBoard (sourceContents.map parseKanban)
  (merged, serializeKanban merged)


deriving instance DecidableEq for Except

/-! ## Concrete boards, documents and filesystems used by the claims -/

/-- A filesystem with an existing vault directory at `/vault` (with or
without a trailing separator) and nothing else on disk. -/
def pathFs0 : Fs :=
  { access := fun _ => false
    realpath := fun s => if s = "/vault" ∨ s = "/vault/" then some "/vault" else none }

/-- The Scenario A document: `kanban-plugin: basic`, a `Backlog` column with
two unchecked items, a `Done` column with one checked item. -/
def docScenarioA : String :=
  "---\nkanban-plugin: basic\n---\n\n## Backlog\n\n- [ ] Task 1\n- [ ] Task 2\n\n## Done\n\n- [x] Done task\n"

/-- A document with two identical `## X` header lines. -/
def docDupHeaders : String := "---\nkanban-plugin: basic\n---\n## X\n## X\n"

/-! ## Claims about the path validator -/

/-- **C2.** On a POSIX host, `validateVaultPath('/vault', '/etc/passwd')`
throws the containment error, but `validateVaultPath('/vault',
'C:\Windows\System32')` does **not** throw: POSIX `isAbsolute` is false for a
drive-letter path, so the string is resolved as a relative file name inside
the vault and accepted.  This contradicts the claim (and the repo's own test
`rejects absolute Windows path outside vault`). -/
theorem validateVaultPath_absolute_paths_on_posix :
    validateVaultPath pathFs0 "/vault" "/etc/passwd" =
      .error "Path escapes vault boundaries: /etc/passwd -> /etc/passwd" ∧
    validateVaultPath pathFs0 "/vault" "C:\\Windows\\System32" =
      .ok "/vault/C:\\Windows\\System32" := by
  exact ⟨by decide, by decide⟩

/-- **C3.** For any filesystem on which the vault root (written with or
without a trailing separator) canonicalizes to `/vault`, the traversal target
`../../etc/passwd` is rejected with the containment error.  The statement
quantifies over every `Fs`, so the rejection is independent of whether the
target exists on disk. -/
theorem validateVaultPath_dotdot_escape (fs : Fs) (root : String)
    (hroot : root = "/vault" ∨ root = "/vault/")
    (hreal : fs.realpath root = some "/vault") :
    validateVaultPath fs root "../../etc/passwd" =
      .error "Path escapes vault boundaries: ../../etc/passwd -> /etc/passwd" := by
  rcases hroot with rfl | rfl <;>
    simp only [validateVaultPath, nfcNormalize, hreal] <;> rfl

/-- Witness for C3 at the concrete filesystem `pathFs0` and both spellings of
the root. -/
theorem validateVaultPath_dotdot_escape_witness :
    validateVaultPath pathFs0 "/vault" "../../etc/passwd" =
      .error "Path escapes vault boundaries: ../../etc/passwd -> /etc/passwd" ∧
    validateVaultPath pathFs0 "/vault/" "../../etc/passwd" =
      .error "Path escapes vault boundaries: ../../etc/passwd -> /etc/passwd" :=
  ⟨validateVaultPath_dotdot_escape pathFs0 "/vault" (Or.inl rfl) rfl,
   validateVaultPath_dotdot_escape pathFs0 "/vault/" (Or.inr rfl) rfl⟩

/-! ## Claims settled by concrete computation of the codec -/

/-- **C9.** Parsing a document with two identical `## X` lines yields two
distinct columns with the same name, so `parseKanban` does not establish the
"no two columns share a name" invariant. -/
theorem parseKanban_duplicate_headers :
    (parseKanban docDupHeaders).columns = [⟨"X", []⟩, ⟨"X", []⟩] ∧
    ¬ ((parseKanban docDupHeaders).columns.map (·.name)).Nodup := by
  decide

/-- **C7 (counterexample).** The claimed result of Scenario B is false on the
code: `archiveDone` moves only completed items, so `Backlog` keeps its two
unchecked items and is not empty. -/
theorem kanbanArchiveDone_scenarioA_claimed_result_false :
    ¬ (kanbanArchiveDone (parseKanban docScenarioA) none =
      { path := ""
        settings := [("kanban-plugin", "basic")]
        columns := [⟨"Backlog", []⟩, ⟨"Done", []⟩,
                    ⟨"Archive", [⟨"Done task", true⟩]⟩] }) := by
  decide

/-- **C7 (amended).** Parsing the Scenario A document yields the two expected
columns with their items and flags in order; running `kanbanArchiveDone` with
the default archive name on the parsed board yields three columns in order:
`Backlog` still holding its two unchecked items, `Done` now empty, and
`Archive` holding the single completed item `Done task`. -/
theorem parseKanban_scenarioA_archiveDone :
    parseKanban docScenarioA =
      { path := ""
        settings := [("kanban-plugin", "basic")]
        columns := [⟨"Backlog", [⟨"Task 1", false⟩, ⟨"Task 2", false⟩]⟩,
                    ⟨"Done", [⟨"Done task", true⟩]⟩] } ∧
    kanbanArchiveDone (parseKanban docScenarioA) none =
      { path := ""
        settings := [("kanban-plugin", "basic")]
        columns := [⟨"Backlog", [⟨"Task 1", false⟩, ⟨"Task 2", false⟩]⟩,
                    ⟨"Done", []⟩,
                    ⟨"Archive", [⟨"Done task", true⟩]⟩] } := by
  decide

/-! ## C5: newline handling of the two validators -/

/-- **C5.** The two validators differ on newlines exactly as claimed:
`validateItemText` accepts any string free of null bytes and of control
characters other than tab/LF/CR whose trimmed form is non-empty, within the
10,240 limit and free of LF/CR — the LF/CR check runs only after trimming, so
newlines in the surrounding whitespace are fine; `validateColumnName` fails
on every string containing LF or CR anywhere (checked before trimming), and
otherwise returns the trimmed name under the 200 limit.  The final two
conjuncts contrast the validators on one string with newlines only in its
surrounding whitespace. -/
theorem validateItemText_validateColumnName_newline_contrast :
    (∀ s : String,
      containsNullByte s = false →
      containsControlCharacters s true = false →
      hasChar (jsTrim s) '\n' = false →
      hasChar (jsTrim s) '\r' = false →
      utf16Len (jsTrim s) ≠ 0 →
      utf16Len (jsTrim s) ≤ 10240 →
      validateItemText s = .ok (jsTrim s)) ∧
    (∀ s : String, hasChar s '\n' = true ∨ hasChar s '\r' = true →
      ∃ e, validateColumnName s = .error e) ∧
    (∀ s : String,
      containsNullByte s = false →
      hasChar s '\n' = false →
      hasChar s '\r' = false →
      containsControlCharacters s false = false →
      utf16Len (jsTrim s) ≠ 0 →
      utf16Len (jsTrim s) ≤ 200 →
      validateColumnName s = .ok (jsTrim s)) ∧
    validateItemText " \n task one \n " = .ok "task one" ∧
    (∃ e, validateColumnName " \n task one \n " = .error e) := by
  refine ⟨?_, ?_, ?_, by decide,
    ⟨"Column name cannot contain newlines (corrupts markdown headers)", by decide⟩⟩
  · intro s h0 h1 h2 h3 h4 h5
    simp [validateItemText, h0, h1, h2, h3, h4, Nat.not_lt.mpr h5]
  · intro s h
    by_cases hn : containsNullByte s = true
    · exact ⟨"Column name contains null byte", by simp [validateColumnName, hn]⟩
    · refine ⟨"Column name cannot contain newlines (corrupts markdown headers)", ?_⟩
      have hor : (hasChar s '\n' || hasChar s '\r') = true := by
        rcases h with h | h <;> simp [h]
      simp [validateColumnName, hn, hor]
  · intro s h0 h1 h2 h3 h4 h5
    simp [validateColumnName, h0, h1, h2, h3, h4, Nat.not_lt.mpr h5]

/-- Witness for C5: the three universal conjuncts instantiated at concrete
strings, hypotheses discharged by computation. -/
theorem validateItemText_validateColumnName_newline_contrast_witness :
    validateItemText " \n task one \n " = .ok (jsTrim " \n task one \n ") ∧
    (∃ e, validateColumnName "a\nb" = .error e) ∧
    validateColumnName "  col  " = .ok (jsTrim "  col  ") :=
  ⟨validateItemText_validateColumnName_newline_contrast.1 " \n task one \n "
      (by decide) (by decide) (by decide) (by decide) (by decide) (by decide),
   validateItemText_validateColumnName_newline_contrast.2.1 "a\nb" (Or.inl (by decide)),
   validateItemText_validateColumnName_newline_contrast.2.2.1 "  col  "
      (by decide) (by decide) (by decide) (by decide) (by decide) (by decide)⟩

/-! ## First-match lemmas for the mutation operations -/

theorem find?_columns_first (cols1 cols2 : List Column) (col : Column) (n : String)
    (h1 : ∀ c ∈ cols1, c.name ≠ n) (h2 : col.name = n) :
    (cols1 ++ col :: cols2).find? (fun c => c.name = n) = some col := by
  induction cols1 with
  | nil => simp [List.find?, h2]
  | cons c rest ih =>
    have hc : c.name ≠ n := h1 c (by simp)
    simp only [List.cons_append, List.find?]
    simp [hc, ih fun d hd => h1 d (by simp [hd])]

theorem find?_columns_none (cols : List Column) (n : String)
    (h : ∀ c ∈ cols, c.name ≠ n) :
    cols.find? (fun c => c.name = n) = none := by
  rw [List.find?_eq_none]
  intro c hc
  simp [h c hc]

theorem removeFirstItem_first (pre post : List Item) (x : Item) (t : String)
    (hpre : ∀ y ∈ pre, y.text ≠ t) (hx : x.text = t) :
    removeFirstItem (pre ++ x :: post) t = some (x, pre ++ post) := by
  induction pre with
  | nil => simp [removeFirstItem, hx]
  | cons y rest ih =>
    have hy : y.text ≠ t := hpre y (by simp)
    simp only [List.cons_append, removeFirstItem]
    simp [hy, ih fun z hz => hpre z (by simp [hz])]

theorem removeFirstItem_none (items : List Item) (t : String)
    (h : ∀ y ∈ items, y.text ≠ t) :
    removeFirstItem items t = none := by
  induction items with
  | nil => rfl
  | cons y rest ih =>
    have hy : y.text ≠ t := h y (by simp)
    simp [removeFirstItem, hy, ih fun z hz => h z (by simp [hz])]

theorem updateFirstColumn_first (cols1 cols2 : List Column) (col : Column) (n : String)
    (f : Column → Column) (h1 : ∀ c ∈ cols1, c.name ≠ n) (h2 : col.name = n) :
    updateFirstColumn (cols1 ++ col :: cols2) n f = cols1 ++ f col :: cols2 := by
  induction cols1 with
  | nil => simp [updateFirstColumn, h2]
  | cons c rest ih =>
    have hc : c.name ≠ n := h1 c (by simp)
    simp only [List.cons_append, updateFirstColumn]
    simp [hc, ih fun d hd => h1 d (by simp [hd])]

/-! ## C4: kanbanItemReorder -/

/-- **C4.** `kanbanItemReorder` removes the first item whose text matches and
reinserts it at `min(position, n)` where `n` is the column length measured
after removal (first conjunct); a position at least `n` appends at the end
(second conjunct); a missing column or missing item yields the not-found
error (last two conjuncts). -/
theorem kanbanItemReorder_spec :
    (∀ (b : Board) (cols1 cols2 : List Column) (col : Column) (pre post : List Item)
        (x : Item) (columnName text : String) (pos : Nat),
      b.columns = cols1 ++ col :: cols2 →
      (∀ c ∈ cols1, c.name ≠ columnName) → col.name = columnName →
      col.items = pre ++ x :: post → (∀ y ∈ pre, y.text ≠ text) → x.text = text →
      kanbanItemReorder b columnName text pos =
        .ok { b with columns := cols1 ++
          { col with items := spliceInsert (pre ++ post) (min pos (pre ++ post).length) x } :: cols2 }) ∧
    (∀ (l : List Item) (x : Item) (pos : Nat), l.length ≤ pos →
      spliceInsert l (min pos l.length) x = l ++ [x]) ∧
    (∀ (b : Board) (columnName text : String) (pos : Nat),
      (∀ c ∈ b.columns, c.name ≠ columnName) →
      kanbanItemReorder b columnName text pos = .error (columnNotFoundMsg columnName b)) ∧
    (∀ (b : Board) (cols1 cols2 : List Column) (col : Column) (columnName text : String) (pos : Nat),
      b.columns = cols1 ++ col :: cols2 →
      (∀ c ∈ cols1, c.name ≠ columnName) → col.name = columnName →
      (∀ y ∈ col.items, y.text ≠ text) →
      kanbanItemReorder b columnName text pos =
        .error ("Item \"" ++ text ++ "\" not found in column \"" ++ columnName ++ "\"")) := by
  refine ⟨?_, ?_, ?_, ?_⟩
  · intro b cols1 cols2 col pre post x columnName text pos hb h1 h2 hitems hpre hx
    have hfind : b.columns.find? (fun c => c.name = columnName) = some col := by
      rw [hb]; exact find?_columns_first cols1 cols2 col columnName h1 h2
    have hrem : removeFirstItem col.items text = some (x, pre ++ post) := by
      rw [hitems]; exact removeFirstItem_first pre post x text hpre hx
    have hupd : ∀ f, updateFirstColumn b.columns columnName f = cols1 ++ f col :: cols2 := by
      intro f; rw [hb]; exact updateFirstColumn_first cols1 cols2 col columnName f h1 h2
    simp [kanbanItemReorder, hfind, hrem, hupd]
  · intro l x pos h
    simp [spliceInsert, Nat.min_eq_right h]
  · intro b columnName text pos h
    simp [kanbanItemReorder, find?_columns_none b.columns columnName h]
  · intro b cols1 cols2 col columnName text pos hb h1 h2 hnone
    have hfind : b.columns.find? (fun c => c.name = columnName) = some col := by
      rw [hb]; exact find?_columns_first cols1 cols2 col columnName h1 h2
    simp [kanbanItemReorder, hfind, removeFirstItem_none col.items text hnone]

/-- Witness for C4 on a concrete two-item board: reorder to the front, an
out-of-range position clamping to the end, and both error cases. -/
theorem kanbanItemReorder_spec_witness :
    kanbanItemReorder ⟨"", [], [⟨"A", [⟨"t1", false⟩, ⟨"t2", true⟩]⟩]⟩ "A" "t2" 0 =
      .ok ⟨"", [], [⟨"A", [⟨"t2", true⟩, ⟨"t1", false⟩]⟩]⟩ ∧
    spliceInsert [Item.mk "t1" false] (min 999 [Item.mk "t1" false].length) ⟨"t2", true⟩ =
      [⟨"t1", false⟩, ⟨"t2", true⟩] ∧
    kanbanItemReorder ⟨"", [], [⟨"A", []⟩]⟩ "B" "t" 0 =
      .error (columnNotFoundMsg "B" ⟨"", [], [⟨"A", []⟩]⟩) ∧
    kanbanItemReorder ⟨"", [], [⟨"A", [⟨"t1", false⟩]⟩]⟩ "A" "zz" 3 =
      .error ("Item \"" ++ "zz" ++ "\" not found in column \"" ++ "A" ++ "\"") := by
  refine ⟨?_, ?_, ?_, ?_⟩
  · have := kanbanItemReorder_spec.1 ⟨"", [], [⟨"A", [⟨"t1", false⟩, ⟨"t2", true⟩]⟩]⟩
      [] [] ⟨"A", [⟨"t1", false⟩, ⟨"t2", true⟩]⟩ [⟨"t1", false⟩] [] ⟨"t2", true⟩ "A" "t2" 0
      rfl (by simp) rfl rfl (by decide) rfl
    simpa using this
  · exact kanbanItemReorder_spec.2.1 [⟨"t1", false⟩] ⟨"t2", true⟩ 999 (by decide)
  · exact kanbanItemReorder_spec.2.2.1 ⟨"", [], [⟨"A", []⟩]⟩ "B" "t" 0 (by decide)
  · exact kanbanItemReorder_spec.2.2.2 ⟨"", [], [⟨"A", [⟨"t1", false⟩]⟩]⟩
      [] [] ⟨"A", [⟨"t1", false⟩]⟩ "A" "zz" 3 rfl (by simp) rfl (by decide)

/-! ## C6: kanbanColumnRemove -/

theorem removeFirstColumn_first (cols1 cols2 : List Column) (col : Column) (n : String)
    (h1 : ∀ c ∈ cols1, c.name ≠ n) (h2 : col.name = n) :
    removeFirstColumn (cols1 ++ col :: cols2) n = some (col, cols1 ++ cols2) := by
  induction cols1 with
  | nil => simp [removeFirstColumn, h2]
  | cons c rest ih =>
    have hc : c.name ≠ n := h1 c (by simp)
    simp only [List.cons_append, removeFirstColumn]
    simp [hc, ih fun d hd => h1 d (by simp [hd])]

/-- **C6 (counterexample).** Removing an **empty** column skips every
targetColumn check: with a single empty column `A`, both a self-referential
target and a nonexistent target succeed and the column is removed, so the
claimed unconditional failures do not hold. -/
theorem kanbanColumnRemove_empty_column_ignores_target :
    kanbanColumnRemove ⟨"", [], [⟨"A", []⟩]⟩ "A" (some "A") = .ok ⟨"", [], []⟩ ∧
    kanbanColumnRemove ⟨"", [], [⟨"A", []⟩]⟩ "A" (some "B") = .ok ⟨"", [], []⟩ := by
  decide

/-- **C6 (amended).** When the first column named `name` has at least one
item (and the names involved are non-empty, since the source treats an empty
`targetColumn` string as absent), a self-referential target fails with the
self-reference error, an absent target fails with the target-not-found error,
and an omitted target fails with the contains-items error.  The pure model
returns no board in these cases, so the board is not written. -/
theorem kanbanColumnRemove_nonempty_target_checks (b : Board) (name target : String)
    (cols1 cols2 : List Column) (col : Column)
    (hb : b.columns = cols1 ++ col :: cols2)
    (h1 : ∀ c ∈ cols1, c.name ≠ name) (h2 : col.name = name)
    (hne : col.items ≠ []) :
    (target = name → name ≠ "" →
      kanbanColumnRemove b name (some target) =
        .error "Cannot move items to the same column being removed") ∧
    ((∀ c ∈ b.columns, c.name ≠ target) → target ≠ "" →
      kanbanColumnRemove b name (some target) =
        .error ("Target column \"" ++ target ++ "\" not found. Available columns: " ++
          String.intercalate ", " (b.columns.map (·.name)))) ∧
    kanbanColumnRemove b name none =
      .error ("Column \"" ++ name ++ "\" contains " ++ toString col.items.length ++
        " item(s). Specify targetColumn to move items before removal.") := by
  have hrem : removeFirstColumn b.columns name = some (col, cols1 ++ cols2) := by
    rw [hb]; exact removeFirstColumn_first cols1 cols2 col name h1 h2
  have hlen : col.items.length > 0 := List.length_pos.mpr hne
  refine ⟨?_, ?_, ?_⟩
  · rintro rfl hne'
    have hmemf : (b.columns.all fun c => !(c.name = target)) = false := by
      rw [List.all_eq_false]
      exact ⟨col, by simp [hb], by simp [h2]⟩
    simp [kanbanColumnRemove, hrem, hlen, hne', hmemf]
  · intro hall hne'
    have hmem : (b.columns.all fun c => !(c.name = target)) = true := by
      rw [List.all_eq_true]
      intro c hc
      simp [hall c hc]
    simp [kanbanColumnRemove, hrem, hlen, hne', hmem]
  · simp [kanbanColumnRemove, hrem, hlen]

/-- Witness for C6's amended theorem on a concrete one-item board. -/
theorem kanbanColumnRemove_nonempty_target_checks_witness :
    kanbanColumnRemove ⟨"", [], [⟨"A", [⟨"x", false⟩]⟩]⟩ "A" (some "A") =
      .error "Cannot move items to the same column being removed" ∧
    kanbanColumnRemove ⟨"", [], [⟨"A", [⟨"x", false⟩]⟩]⟩ "A" (some "B") =
      .error ("Target column \"" ++ "B" ++ "\" not found. Available columns: " ++
        String.intercalate ", " ((Board.mk "" [] [⟨"A", [⟨"x", false⟩]⟩]).columns.map (·.name))) ∧
    kanbanColumnRemove ⟨"", [], [⟨"A", [⟨"x", false⟩]⟩]⟩ "A" none =
      .error ("Column \"" ++ "A" ++ "\" contains " ++ toString [Item.mk "x" false].length ++
        " item(s). Specify targetColumn to move items before removal.") :=
  ⟨(kanbanColumnRemove_nonempty_target_checks ⟨"", [], [⟨"A", [⟨"x", false⟩]⟩]⟩ "A" "A"
      [] [] ⟨"A", [⟨"x", false⟩]⟩ rfl (by simp) rfl (by decide)).1 rfl (by decide),
   (kanbanColumnRemove_nonempty_target_checks ⟨"", [], [⟨"A", [⟨"x", false⟩]⟩]⟩ "A" "B"
      [] [] ⟨"A", [⟨"x", false⟩]⟩ rfl (by simp) rfl (by decide)).2.1 (by decide) (by decide),
   (kanbanColumnRemove_nonempty_target_checks ⟨"", [], [⟨"A", [⟨"x", false⟩]⟩]⟩ "A" "B"
      [] [] ⟨"A", [⟨"x", false⟩]⟩ rfl (by simp) rfl (by decide)).2.2⟩

/-! ## C8: kanbanMerge deduplication -/

/-- The texts of an item list. -/
def itemTexts (l : List Item) : List String := l.map (·.text)

theorem mergeColumnItems_nil (tgt : List Item) : mergeColumnItems tgt [] = tgt := rfl

theorem mergeColumnItems_cons (tgt : List Item) (i : Item) (src : List Item) :
    mergeColumnItems tgt (i :: src) =
      mergeColumnItems (if tgt.any (·.text = i.text) then tgt else tgt ++ [i]) src := by
  simp only [mergeColumnItems, List.foldl_cons]

theorem mergeColumnItems_extends (src : List Item) :
    ∀ tgt, ∃ extra, mergeColumnItems tgt src = tgt ++ extra := by
  induction src with
  | nil => intro tgt; exact ⟨[], by simp [mergeColumnItems_nil]⟩
  | cons i src ih =>
    intro tgt
    rw [mergeColumnItems_cons]
    by_cases h : tgt.any (·.text = i.text)
    · rcases ih tgt with ⟨e, he⟩
      exact ⟨e, by rw [if_pos h, he]⟩
    · rcases ih (tgt ++ [i]) with ⟨e, he⟩
      refine ⟨[i] ++ e, ?_⟩
      rw [if_neg h, he, List.append_assoc]

theorem mergeColumnItems_nodup (src : List Item) :
    ∀ tgt, (itemTexts tgt).Nodup → (itemTexts (mergeColumnItems tgt src)).Nodup := by
  induction src with
  | nil => intro tgt h; simpa [mergeColumnItems_nil] using h
  | cons i src ih =>
    intro tgt h
    rw [mergeColumnItems_cons]
    by_cases hdup : tgt.any (·.text = i.text)
    · rw [if_pos hdup]; exact ih tgt h
    · rw [if_neg hdup]
      refine ih (tgt ++ [i]) ?_
      have hni : i.text ∉ itemTexts tgt := by
        simp only [List.any_eq_true, decide_eq_true_eq] at hdup
        push_neg at hdup
        simp only [itemTexts, List.mem_map]
        rintro ⟨y, hy, hyt⟩
        exact hdup y hy hyt
      have h' : (List.map (fun x => x.text) tgt).Nodup := by simpa [itemTexts] using h
      have hni' : ∀ x ∈ tgt, ¬ x.text = i.text := by
        intro x hx hxeq
        exact hni (List.mem_map.mpr ⟨x, hx, hxeq⟩)
      simp [itemTexts, List.nodup_append, h']
      exact hni'

theorem mergeColumnItems_covers (src : List Item) :
    ∀ tgt, ∀ x ∈ src, x.text ∈ itemTexts (mergeColumnItems tgt src) := by
  induction src with
  | nil => intro tgt x hx; cases hx
  | cons i src ih =>
    intro tgt x hx
    rw [mergeColumnItems_cons]
    rcases List.mem_cons.mp hx with rfl | hx'
    · rcases mergeColumnItems_extends src (if tgt.any (·.text = x.text) then tgt else tgt ++ [x])
        with ⟨e, he⟩
      rw [he]
      by_cases hdup : tgt.any (·.text = x.text)
      · rw [if_pos hdup] at he ⊢
        simp only [List.any_eq_true, decide_eq_true_eq] at hdup
        rcases hdup with ⟨y, hy, hyt⟩
        simp only [itemTexts, List.map_append, List.mem_append, List.mem_map]
        exact Or.inl ⟨y, hy, hyt⟩
      · rw [if_neg hdup]
        simp [itemTexts]
    · exact ih _ x hx'

/-- The Scenario E target: a board whose `To Do` column holds one item. -/
def boardMergeTarget : Board :=
  ⟨"/vault/combined.md", [("kanban-plugin", "basic")], [⟨"To Do", [⟨"Write report", false⟩]⟩]⟩

/-- The Scenario E source: another board with an identically-texted item in
its own `To Do` column. -/
def boardMergeSource : Board :=
  ⟨"/vault/other.md", [("kanban-plugin", "basic")], [⟨"To Do", [⟨"Write report", true⟩]⟩]⟩

/-- **C8.** `kanbanMerge` deduplicates by exact item text within each target
column: appending never introduces a duplicate text into a column whose texts
were distinct (first conjunct), every source item's text is represented in
the merged column (second conjunct), and merging two boards that each hold a
`To Do` column with one identically-texted item yields a single `To Do`
column with exactly one such item (third conjunct). -/
theorem kanbanMerge_dedup_spec :
    (∀ (tgt src : List Item), (itemTexts tgt).Nodup →
      (itemTexts (mergeColumnItems tgt src)).Nodup) ∧
    (∀ (tgt src : List Item), ∀ x ∈ src, x.text ∈ itemTexts (mergeColumnItems tgt src)) ∧
    mergeBoards boardMergeTarget [boardMergeSource] =
      ⟨"/vault/combined.md", [("kanban-plugin", "basic")],
        [⟨"To Do", [⟨"Write report", false⟩]⟩]⟩ := by
  exact ⟨fun tgt src h => mergeColumnItems_nodup src tgt h,
         fun tgt src x hx => mergeColumnItems_covers src tgt x hx,
         by decide⟩

/-- Witness for C8 at concrete item lists. -/
theorem kanbanMerge_dedup_spec_witness :
    (itemTexts (mergeColumnItems [⟨"a", false⟩] [⟨"a", true⟩, ⟨"b", false⟩])).Nodup ∧
    (Item.mk "b" false).text ∈
      itemTexts (mergeColumnItems [⟨"a", false⟩] [⟨"a", true⟩, ⟨"b", false⟩]) :=
  ⟨kanbanMerge_dedup_spec.1 [⟨"a", false⟩] [⟨"a", true⟩, ⟨"b", false⟩] (by decide),
   kanbanMerge_dedup_spec.2.1 [⟨"a", false⟩] [⟨"a", true⟩, ⟨"b", false⟩]
     ⟨"b", false⟩ (by decide)⟩

/-! ## C10: kanbanMerge with an unreadable target -/

/-- **C10.** When reading the target board fails (for any reason `e`),
`kanbanMerge` does not propagate the error: it substitutes the fresh board
`{settings: {'kanban-plugin': 'basic'}, columns: [], path: targetPath}`,
merges all sources into it, and hands the serialized result to the write at
the target path.  The final conjunct runs the pipeline on a missing target
and one concrete source: the target is created with the source's columns. -/
theorem kanbanMerge_missing_target_spec :
    (∀ (e : String) (srcs : List String) (p : String),
      kanbanMerge (.error e) srcs p =
        (mergeBoards (freshMergeTarget p) (srcs.map parseKanban),
         serializeKanban (mergeBoards (freshMergeTarget p) (srcs.map parseKanban)))) ∧
    (∀ p : String, freshMergeTarget p =
      { path := p, settings := [("kanban-plugin", "basic")], columns := [] }) ∧
    (∀ (e : String) (srcs : List String) (p : String),
      (kanbanMerge (.error e) srcs p).1.path = p) ∧
    (kanbanMerge (.error "ENOENT: no such file") [docScenarioA] "/vault/combined.md").1 =
      { path := "/vault/combined.md"
        settings := [("kanban-plugin", "basic")]
        columns := [⟨"Backlog", [⟨"Task 1", false⟩, ⟨"Task 2", false⟩]⟩,
                    ⟨"Done", [⟨"Done task", true⟩]⟩] } := by
  exact ⟨fun _ _ _ => rfl, fun _ => rfl, fun _ _ _ => rfl, by decide⟩

/-! ## C1: round trip.  Split/join and string facts -/

theorem dropWhile_length_le (p : Char → Bool) (l : List Char) :
    (l.dropWhile p).length ≤ l.length := by
  induction l with
  | nil => simp
  | cons c t ih =>
    by_cases h : p c
    · simp only [List.dropWhile_cons, if_pos h, List.length_cons]
      omega
    · simp [List.dropWhile_cons, h]

theorem trimList_length_le (l : List Char) : (trimList l).length ≤ l.length := by
  unfold trimList
  calc ((l.dropWhile jsWs).reverse.dropWhile jsWs).reverse.length
      = ((l.dropWhile jsWs).reverse.dropWhile jsWs).length := by simp
    _ ≤ (l.dropWhile jsWs).reverse.length := dropWhile_length_le _ _
    _ = (l.dropWhile jsWs).length := by simp
    _ ≤ l.length := dropWhile_length_le _ _

theorem trimList_fix_head (c : Char) (t : List Char) (h : trimList (c :: t) = c :: t) :
    jsWs c = false := by
  by_contra hws
  have hws' : jsWs c = true := by
    cases hcb : jsWs c
    · exact absurd hcb hws
    · rfl
  have h1 : trimList (c :: t) = ((t.dropWhile jsWs).reverse.dropWhile jsWs).reverse := by
    simp [trimList, List.dropWhile_cons, hws']
  have h2 : (trimList (c :: t)).length ≤ t.length := by
    rw [h1]
    calc ((t.dropWhile jsWs).reverse.dropWhile jsWs).reverse.length
        = ((t.dropWhile jsWs).reverse.dropWhile jsWs).length := by simp
      _ ≤ (t.dropWhile jsWs).reverse.length := dropWhile_length_le _ _
      _ = (t.dropWhile jsWs).length := by simp
      _ ≤ t.length := dropWhile_length_le _ _
  rw [h] at h2
  simp at h2

theorem splitCharList_no_sep (sep : Char) (l : List Char) (h : sep ∉ l) :
    splitCharList sep l = [l] := by
  induction l with
  | nil => rfl
  | cons c t ih =>
    have hc : ¬ c = sep := fun hcs => h (hcs ▸ List.mem_cons_self c t)
    have ht := ih fun hm => h (List.mem_cons_of_mem c hm)
    simp [splitCharList, hc, ht]

theorem splitCharList_append_sep (sep : Char) (l t : List Char) (h : sep ∉ l) :
    splitCharList sep (l ++ sep :: t) = l :: splitCharList sep t := by
  induction l with
  | nil => simp [splitCharList]
  | cons c l' ih =>
    have hc : ¬ c = sep := fun hcs => h (hcs ▸ List.mem_cons_self c l')
    have ht := ih fun hm => h (List.mem_cons_of_mem c hm)
    have step : splitCharList sep (c :: (l' ++ sep :: t)) =
        if c = sep then [] :: splitCharList sep (l' ++ sep :: t)
        else (c :: (splitCharList sep (l' ++ sep :: t)).headD []) ::
          (splitCharList sep (l' ++ sep :: t)).tail := rfl
    rw [List.cons_append, step, ht, if_neg hc]
    rfl

theorem splitCharList_joinCharList (sep : Char) (L : List (List Char)) (hne : L ≠ [])
    (h : ∀ l ∈ L, sep ∉ l) : splitCharList sep (joinCharList sep L) = L := by
  induction L with
  | nil => exact absurd rfl hne
  | cons l L ih =>
    cases L with
    | nil => exact splitCharList_no_sep sep l (h l (by simp))
    | cons l' L' =>
      have hstep : joinCharList sep (l :: l' :: L') = l ++ sep :: joinCharList sep (l' :: L') := rfl
      rw [hstep, splitCharList_append_sep sep l _ (h l (by simp)),
        ih (by simp) fun m hm => h m (List.mem_cons_of_mem l hm)]

theorem hasChar_false_iff (s : String) (c : Char) : hasChar s c = false ↔ c ∉ s.data := by
  simp only [hasChar, List.any_eq_false, decide_eq_true_eq]
  constructor
  · intro h hc; exact h c hc rfl
  · intro h x hx hxc; exact h (hxc ▸ hx)

theorem splitNl_joinNl (L : List String) (hne : L ≠ [])
    (h : ∀ s ∈ L, hasChar s '\n' = false) : splitNl (joinNl L) = L := by
  unfold splitNl joinNl
  rw [splitCharList_joinCharList '\n' (L.map (·.data)) (by simpa using hne) ?hmem]
  · rw [List.map_map,
      show ((fun x : List Char => (⟨x⟩ : String)) ∘ fun s : String => s.data) = id from
        funext fun _ => rfl,
      List.map_id]
  case hmem =>
    intro l hl
    rcases List.mem_map.mp hl with ⟨s, hs, rfl⟩
    exact (hasChar_false_iff s '\n').mp (h s hs)

/-- `(s ++ t).data = s.data ++ t.data` (definitional, recorded for `rw`). -/
theorem string_data_append (s t : String) : (s ++ t).data = s.data ++ t.data := rfl

theorem hasChar_append (s t : String) (c : Char) :
    hasChar (s ++ t) c = (hasChar s c || hasChar t c) := by
  simp [hasChar, string_data_append, List.any_append]

/-! ## C1: facts extracted from the validators -/

/-- What `validateItemText s = ok s` guarantees about `s`. -/
theorem validateItemText_ok_fix (s : String) (h : validateItemText s = .ok s) :
    jsTrim s = s ∧ hasChar s '\n' = false ∧ hasChar s '\r' = false ∧
    s.data ≠ [] := by
  unfold validateItemText at h
  split_ifs at h with h1 h2 h3 h4 h5
  injection h with h'
  have hor : (hasChar (jsTrim s) '\n' || hasChar (jsTrim s) '\r') = false :=
    Bool.eq_false_iff.mpr h3
  rcases Bool.or_eq_false_iff.mp hor with ⟨ha, hb⟩
  refine ⟨h', by rwa [h'] at ha, by rwa [h'] at hb, ?_⟩
  intro hnil
  apply h4
  rw [h']
  simp [utf16Len, hnil]

/-- What `validateColumnName s = ok s` guarantees about `s`. -/
theorem validateColumnName_ok_fix (s : String) (h : validateColumnName s = .ok s) :
    jsTrim s = s ∧ hasChar s '\n' = false ∧ hasChar s '\r' = false ∧
    s.data ≠ [] := by
  unfold validateColumnName at h
  split_ifs at h with h1 h2 h3 h4 h5
  injection h with h'
  have hor : (hasChar s '\n' || hasChar s '\r') = false := Bool.eq_false_iff.mpr h2
  rcases Bool.or_eq_false_iff.mp hor with ⟨ha, hb⟩
  refine ⟨h', ha, hb, ?_⟩
  intro hnil
  apply h4
  rw [h']
  simp [utf16Len, hnil]

/-! ## C1: serialized lines re-match correctly -/

/-- `U+2028`/`U+2029` free: the two line separators that pass the validators
but are not matched by the regex `.`. -/
def noLineSeps (s : String) : Prop := ∀ c ∈ s.data, c ≠ '\u2028' ∧ c ≠ '\u2029'

/-- A serializable item: its text is a fixpoint of `validateItemText` and
carries no `U+2028`/`U+2029`. -/
def goodItem (i : Item) : Prop := validateItemText i.text = .ok i.text ∧ noLineSeps i.text

/-- A serializable column: its name is a fixpoint of `validateColumnName`,
carries no `U+2028`/`U+2029`, and all its items are serializable. -/
def goodColumn (c : Column) : Prop :=
  validateColumnName c.name = .ok c.name ∧ noLineSeps c.name ∧ ∀ i ∈ c.items, goodItem i

theorem jsDot_of_ne (c : Char) (h1 : c ≠ '\n') (h2 : c ≠ '\r')
    (h3 : c ≠ '\u2028') (h4 : c ≠ '\u2029') : jsDot c = true := by
  have key : ∀ (d : Char), c ≠ d → ¬ c.toNat = d.toNat := by
    intro d hne he
    apply hne
    have hc := congrArg Char.ofNat he
    rwa [Char.ofNat_toNat, Char.ofNat_toNat] at hc
  have e1 := key '\n' h1
  have e2 := key '\r' h2
  have e3 := key '\u2028' h3
  have e4 := key '\u2029' h4
  simp only [jsDot, Bool.not_eq_true']
  simp only [Bool.or_eq_false_iff, decide_eq_false_iff_not]
  exact ⟨⟨⟨e1, e2⟩, e3⟩, e4⟩

theorem all_jsDot_of (s : String) (hn : hasChar s '\n' = false)
    (hr : hasChar s '\r' = false) (hls : noLineSeps s) : s.data.all jsDot = true := by
  rw [List.all_eq_true]
  intro c hc
  have hn' := (hasChar_false_iff s '\n').mp hn
  have hr' := (hasChar_false_iff s '\r').mp hr
  simp only [jsDot_of_ne c (fun h => hn' (h ▸ hc)) (fun h => hr' (h ▸ hc))
    (hls c hc).1 (hls c hc).2]

theorem matchHeader_of_good (name : String)
    (hfix : jsTrim name = name) (hne : name.data ≠ [])
    (hdot : name.data.all jsDot = true) :
    matchHeader ("## " ++ name) = some name := by
  obtain ⟨nd⟩ := name
  cases nd with
  | nil => exact absurd rfl hne
  | cons c t =>
    have hc : jsWs c = false :=
      trimList_fix_head c t (congrArg String.data hfix)
    have e : matchHeader ("## " ++ (⟨c :: t⟩ : String)) = headerTail (' ' :: c :: t) := rfl
    rw [e]
    have hrun : wsRunLen (' ' :: c :: t) = 1 := by
      simp [wsRunLen, List.takeWhile_cons, hc, show jsWs ' ' = true from by decide]
    unfold headerTail
    rw [hrun]
    rw [if_neg (by omega), if_pos (by simp only [List.length_cons]; omega)]
    simpa using hdot

theorem matchItem_of_good (i : Item)
    (hfix : jsTrim i.text = i.text) (hne : i.text.data ≠ [])
    (hdot : i.text.data.all jsDot = true) :
    matchItem (itemLine i) = some (i.completed, i.text) := by
  obtain ⟨⟨td⟩, comp⟩ := i
  cases td with
  | nil => exact absurd rfl hne
  | cons c t =>
    have hc : jsWs c = false :=
      trimList_fix_head c t (congrArg String.data hfix)
    have hrun : wsRunLen (' ' :: c :: t) = 1 := by
      simp [wsRunLen, List.takeWhile_cons, hc, show jsWs ' ' = true from by decide]
    cases comp with
    | false =>
      have e : matchItem (itemLine ⟨⟨c :: t⟩, false⟩) = itemTail2 ' ' (' ' :: c :: t) := rfl
      rw [e]
      unfold itemTail2
      rw [if_pos (by decide), if_neg (by omega)]
      rw [hrun]
      simpa using hdot
    | true =>
      have e : matchItem (itemLine ⟨⟨c :: t⟩, true⟩) = itemTail2 'x' (' ' :: c :: t) := rfl
      rw [e]
      unfold itemTail2
      rw [if_pos (by decide), if_neg (by omega)]
      rw [hrun]
      simpa using hdot

/-! ## C1: the line scan on serialized lines -/

theorem parseLines_stop (line : String) (ls : List String) (cur : Option Column)
    (acc : List Column) (hh : matchHeader line = none) (hi : matchItem line = none)
    (hs : jsStartsWith (jsTrim line) "%%" = true) :
    parseKanbanLines (line :: ls) cur acc = acc ++ cur.toList := by
  cases cur <;> simp [parseKanbanLines, hh, hi, hs]

theorem parseLines_inert (line : String) (ls : List String) (cur : Option Column)
    (acc : List Column) (hh : matchHeader line = none) (hi : matchItem line = none)
    (hs : jsStartsWith (jsTrim line) "%%" = false) :
    parseKanbanLines (line :: ls) cur acc = parseKanbanLines ls cur acc := by
  cases cur <;> simp [parseKanbanLines, hh, hi, hs]

theorem parseLines_blank (ls : List String) (cur : Option Column) (acc : List Column) :
    parseKanbanLines ("" :: ls) cur acc = parseKanbanLines ls cur acc :=
  parseLines_inert "" ls cur acc rfl rfl (by decide)

theorem parseLines_header (line name : String) (ls : List String) (cur : Option Column)
    (acc : List Column) (hh : matchHeader line = some name) :
    parseKanbanLines (line :: ls) cur acc =
      parseKanbanLines ls (some ⟨jsTrim name, []⟩) (acc ++ cur.toList) := by
  simp [parseKanbanLines, hh]

theorem parseLines_item (line : String) (b : Bool) (txt : String) (ls : List String)
    (n : String) (cs : List Item) (acc : List Column)
    (hh : matchHeader line = none) (hi : matchItem line = some (b, txt)) :
    parseKanbanLines (line :: ls) (some ⟨n, cs⟩) acc =
      parseKanbanLines ls (some ⟨n, cs ++ [⟨jsTrim txt, b⟩]⟩) acc := by
  simp [parseKanbanLines, hh, hi]

theorem parseLines_items (items : List Item) :
    ∀ (ls : List String) (n : String) (cs : List Item) (acc : List Column),
    (∀ i ∈ items, goodItem i) →
    parseKanbanLines (items.map itemLine ++ ls) (some ⟨n, cs⟩) acc =
      parseKanbanLines ls (some ⟨n, cs ++ items⟩) acc := by
  induction items with
  | nil => intro ls n cs acc _; simp
  | cons i items ih =>
    intro ls n cs acc hval
    obtain ⟨hok, hls⟩ := hval i (by simp)
    obtain ⟨hfix, hn, hr, hne⟩ := validateItemText_ok_fix i.text hok
    have hmi := matchItem_of_good i hfix hne (all_jsDot_of i.text hn hr hls)
    have hmh : matchHeader (itemLine i) = none := rfl
    rw [List.map_cons, List.cons_append,
      parseLines_item (itemLine i) i.completed i.text _ n cs acc hmh hmi, hfix]
    have heta : (⟨i.text, i.completed⟩ : Item) = i := rfl
    rw [heta, ih ls n (cs ++ [i]) acc fun j hj => hval j (by simp [hj])]
    simp

theorem parseLines_columns (cols : List Column) :
    ∀ (ls : List String) (cur : Option Column) (acc : List Column),
    (∀ c ∈ cols, goodColumn c) →
    (∀ cur' acc', parseKanbanLines ls cur' acc' = acc' ++ cur'.toList) →
    parseKanbanLines (columnsLines cols ++ ls) cur acc = acc ++ cur.toList ++ cols := by
  induction cols with
  | nil => intro ls cur acc _ hstop; simpa using hstop cur acc
  | cons c cols ih =>
    intro ls cur acc hval hstop
    obtain ⟨hok, hls, hitems⟩ := hval c (by simp)
    obtain ⟨hfix, hn, hr, hne⟩ := validateColumnName_ok_fix c.name hok
    have hmh := matchHeader_of_good c.name hfix hne (all_jsDot_of c.name hn hr hls)
    have hshape : columnsLines (c :: cols) ++ ls =
        ("## " ++ c.name) :: "" :: (c.items.map itemLine ++
          ("" :: (columnsLines cols ++ ls))) := by
      simp [columnsLines, columnLines]
    rw [hshape, parseLines_header _ c.name _ cur acc hmh, hfix,
      parseLines_blank,
      parseLines_items c.items _ c.name [] (acc ++ cur.toList) hitems,
      parseLines_blank]
    have heta : (⟨c.name, [] ++ c.items⟩ : Column) = c := by simp
    rw [heta, ih ls (some c) (acc ++ cur.toList) (fun d hd => hval d (by simp [hd])) hstop]
    simp

/-! ## C1: no serialized line contains a newline -/

theorem joinWith_noNl (sep : String) (L : List String) (hsep : hasChar sep '\n' = false)
    (h : ∀ s ∈ L, hasChar s '\n' = false) : hasChar (joinWith sep L) '\n' = false := by
  induction L with
  | nil => rfl
  | cons x xs ih =>
    cases xs with
    | nil => exact h x (by simp)
    | cons y ys =>
      have hx := h x (by simp)
      have hrest := ih fun s hs => h s (by simp [List.mem_cons] at hs ⊢; tauto)
      show hasChar (x ++ sep ++ joinWith sep (y :: ys)) '\n' = false
      rw [hasChar_append, hasChar_append, hx, hsep, hrest]
      rfl

theorem digitChar_ne_nl : ∀ n : Nat, n < 16 → Nat.digitChar n ≠ '\n' := by decide

theorem jsonEscapeChar_noNl (c : Char) : '\n' ∉ jsonEscapeChar c := by
  unfold jsonEscapeChar
  split_ifs with h1 h2 h3 h4 h5 h6 h7 h8
  · decide
  · decide
  · decide
  · decide
  · decide
  · decide
  · decide
  · intro hmem
    simp only [List.mem_cons, List.not_mem_nil, or_false] at hmem
    rcases hmem with h | h | h | h | h | h
    · exact absurd h.symm (by decide)
    · exact absurd h.symm (by decide)
    · exact absurd h.symm (by decide)
    · exact absurd h.symm (by decide)
    · exact digitChar_ne_nl (c.toNat / 16) (by omega) h.symm
    · exact digitChar_ne_nl (c.toNat % 16) (by omega) h.symm
  · intro hmem
    simp only [List.mem_cons, List.not_mem_nil, or_false] at hmem
    subst hmem
    simp at h8

theorem jsonString_noNl (s : String) : hasChar (jsonString s) '\n' = false := by
  rw [hasChar_false_iff]
  intro hmem
  unfold jsonString at hmem
  rw [string_data_append, string_data_append] at hmem
  simp only [List.mem_append, List.mem_cons, List.not_mem_nil, or_false] at hmem
  rcases hmem with (h | h) | h
  · exact absurd h (by decide)
  · rcases List.mem_flatten.mp h with ⟨l, hl, hnl⟩
    rcases List.mem_map.mp hl with ⟨c, _, rfl⟩
    exact jsonEscapeChar_noNl c hnl
  · exact absurd h (by decide)

theorem jsonStringify_noNl (m : List (String × String)) :
    hasChar (jsonStringify m) '\n' = false := by
  unfold jsonStringify
  rw [hasChar_append, hasChar_append]
  have hmid : hasChar (joinWith "," (m.map fun p => jsonString p.1 ++ ":" ++ jsonString p.2))
      '\n' = false := by
    apply joinWith_noNl _ _ (by decide)
    intro s hs
    rcases List.mem_map.mp hs with ⟨p, _, rfl⟩
    rw [hasChar_append, hasChar_append, jsonString_noNl, jsonString_noNl,
      show hasChar ":" '\n' = false from by decide]
    rfl
  rw [hmid, show hasChar "\x7b" '\n' = false from by decide,
    show hasChar "\x7d" '\n' = false from by decide]
  rfl

theorem noNl_headerLine (name : String) (hn : hasChar name '\n' = false) :
    hasChar ("## " ++ name) '\n' = false := by
  rw [hasChar_append, hn, show hasChar "## " '\n' = false from by decide]
  rfl

theorem noNl_itemLine (i : Item) (hn : hasChar i.text '\n' = false) :
    hasChar (itemLine i) '\n' = false := by
  unfold itemLine
  cases hcomp : i.completed <;>
    simp [checkbox, hasChar_append, hn,
      show hasChar "- [ ] " '\n' = false from by decide,
      show hasChar "- [x] " '\n' = false from by decide]

theorem columnsLines_noNl (cols : List Column) (h : ∀ c ∈ cols, goodColumn c) :
    ∀ s ∈ columnsLines cols, hasChar s '\n' = false := by
  induction cols with
  | nil => intro s hs; simp [columnsLines] at hs
  | cons c cols ih =>
    intro s hs
    obtain ⟨hok, _, hitems⟩ := h c (by simp)
    obtain ⟨_, hn, _, _⟩ := validateColumnName_ok_fix c.name hok
    simp only [columnsLines, columnLines, List.cons_append, List.mem_cons,
      List.mem_append, List.mem_singleton, List.not_mem_nil, or_false] at hs
    rcases hs with rfl | rfl | (hmap | rfl) | hrest
    · exact noNl_headerLine c.name hn
    · decide
    · rcases List.mem_map.mp hmap with ⟨i, hi, rfl⟩
      obtain ⟨hoki, _⟩ := hitems i hi
      obtain ⟨hfix, hni, _, _⟩ := validateItemText_ok_fix i.text hoki
      exact noNl_itemLine i hni
    · decide
    · exact ih (fun d hd => h d (by simp [hd])) s hrest

/-! ## C1: stepping through matterSplit and the frontmatter -/

theorem findIdxFrom_cons_neg (p : String → Bool) (x : String) (xs : List String)
    (h : p x = false) :
    findIdxFrom p (x :: xs) = (findIdxFrom p xs).map (· + 1) := by
  simp [findIdxFrom, h]

theorem findIdxFrom_cons_pos (p : String → Bool) (x : String) (xs : List String)
    (h : p x = true) : findIdxFrom p (x :: xs) = some 0 := by
  simp [findIdxFrom, h]

theorem matterSplit_eq (content first : String) (rest : List String) (j : Nat)
    (hsp : splitNl content = first :: rest) (hfirst : first = "---")
    (hj : findIdxFrom (· = "---") rest = some j) :
    matterSplit content = (parseFrontmatterLines (rest.take j), joinNl (rest.drop (j + 1))) := by
  subst hfirst
  unfold matterSplit
  rw [hsp]
  dsimp only
  rw [if_pos rfl, hj]

theorem trimList_cons_ws (c : Char) (hc : jsWs c = true) (d : List Char) :
    trimList (c :: d) = trimList d := by
  simp [trimList, List.dropWhile_cons, hc]

theorem dropWhile_eq_self_of_fix (l : List Char) (h : trimList l = l) :
    l.dropWhile jsWs = l := by
  cases l with
  | nil => rfl
  | cons c t => simp [List.dropWhile_cons, trimList_fix_head c t (by exact h)]

theorem jsTrim_cons_ws (c : Char) (hc : jsWs c = true) (s : String) (hfix : jsTrim s = s) :
    jsTrim ⟨c :: s.data⟩ = s := by
  have hdata : trimList s.data = s.data := congrArg String.data hfix
  unfold jsTrim
  rw [show (⟨c :: s.data⟩ : String).data = c :: s.data from rfl,
    trimList_cons_ws c hc s.data, hdata]

theorem trimList_ne_nil (l : List Char) (c : Char) (hc : c ∈ l) (hcw : jsWs c = false) :
    trimList l ≠ [] := by
  intro hnil
  unfold trimList at hnil
  have h1 : ((l.dropWhile jsWs).reverse.dropWhile jsWs) = [] := by
    have := congrArg List.reverse hnil
    simpa using this
  rw [List.dropWhile_eq_nil_iff] at h1
  by_cases hmem : c ∈ l.dropWhile jsWs
  · have := h1 c (by simpa using hmem)
    rw [hcw] at this
    cases this
  · have hsplit := List.takeWhile_append_dropWhile (p := jsWs) (l := l)
    have hcc : c ∈ l.takeWhile jsWs ++ l.dropWhile jsWs := by rw [hsplit]; exact hc
    rcases List.mem_append.mp hcc with hmem' | hmem'
    · have := List.mem_takeWhile_imp hmem'
      rw [hcw] at this
      cases this
    · exact hmem hmem'

theorem fmStep_kp (v : String) (hv3 : jsTrim v = v) :
    fmStep [] ("kanban-plugin: " ++ v) = [("kanban-plugin", v)] := by
  have hne : ¬ (jsTrim ("kanban-plugin: " ++ v)).data = [] := by
    show ¬ trimList ("kanban-plugin: " ++ v).data = []
    apply trimList_ne_nil _ 'k'
    · rw [string_data_append]
      exact List.mem_append.mpr (Or.inl (by decide))
    · decide
  unfold fmStep
  rw [if_neg hne,
    show splitAtColon ("kanban-plugin: " ++ v).data =
      some ("kanban-plugin".data, ' ' :: v.data) from rfl]
  show jsSet [] (jsTrim ⟨"kanban-plugin".data⟩) (jsTrim ⟨' ' :: v.data⟩) = _
  rw [jsTrim_cons_ws ' ' (by decide) v hv3]
  rfl

theorem parseFrontmatter_kp (v : String) (hv3 : jsTrim v = v) :
    parseFrontmatterLines ["", "kanban-plugin: " ++ v, ""] = [("kanban-plugin", v)] := by
  show fmStep (fmStep (fmStep [] "") ("kanban-plugin: " ++ v)) "" = _
  rw [show fmStep [] "" = [] from rfl, fmStep_kp v hv3]
  rfl

theorem buildSettings_kp (v : String) (hv4 : v ≠ "") :
    buildSettings [("kanban-plugin", v)] = [("kanban-plugin", v)] := by
  unfold buildSettings jsLookup
  rw [show List.find? (fun p => decide (p.1 = "kanban-plugin"))
      [("kanban-plugin", v)] = some ("kanban-plugin", v) from rfl]
  rw [show Option.map (fun x : String × String => x.2) (some ("kanban-plugin", v)) =
      some v from rfl]
  dsimp only
  rw [if_neg hv4]
  rfl

/-- The trailing settings block of `serializeKanban` as a line list. -/
def settingsTrailer (m : List (String × String)) : List String :=
  ["%% kanban:settings", "```", jsonStringify m, "```", "%%", ""]

/-- Core of the round-trip property: for a board whose settings are exactly
`{'kanban-plugin': v}` (for a well-behaved scalar `v`) and whose columns are
serializable, `parseKanban ∘ serializeKanban` reproduces the columns and the
settings. -/
theorem roundtrip_core (b : Board) (v : String)
    (hset : b.settings = [("kanban-plugin", v)])
    (hcols : ∀ c ∈ b.columns, goodColumn c)
    (hv1 : hasChar v '\n' = false)
    (hv2 : ¬ ("kanban-plugin: " ++ v) = "---")
    (hv3 : jsTrim v = v)
    (hv4 : v ≠ "") :
    (parseKanban (serializeKanban b)).columns = b.columns ∧
    (parseKanban (serializeKanban b)).settings = b.settings := by
  obtain ⟨bpath, bset, bcols⟩ := b
  have hset' : bset = [("kanban-plugin", v)] := hset
  subst hset'
  have hcols' : ∀ c ∈ bcols, goodColumn c := hcols
  have hshape : serializeLines ⟨bpath, [("kanban-plugin", v)], bcols⟩ =
      "---" :: "" :: ("kanban-plugin: " ++ v) :: "" :: "---" :: "" ::
        (columnsLines bcols ++ settingsTrailer [("kanban-plugin", v)]) := rfl
  have hkpNoNl : hasChar ("kanban-plugin: " ++ v) '\n' = false := by
    rw [hasChar_append, hv1, show hasChar "kanban-plugin: " '\n' = false from by decide]
    rfl
  have htailNoNl : ∀ s ∈ ("" :: (columnsLines bcols ++
      settingsTrailer [("kanban-plugin", v)]) : List String), hasChar s '\n' = false := by
    intro s hs
    simp only [settingsTrailer, List.mem_cons, List.mem_append,
      List.not_mem_nil, or_false] at hs
    rcases hs with rfl | hcl | rfl | rfl | rfl | rfl | rfl | rfl
    · decide
    · exact columnsLines_noNl bcols hcols' s hcl
    · decide
    · decide
    · exact jsonStringify_noNl _
    · decide
    · decide
    · decide
  have hallNoNl : ∀ s ∈ serializeLines ⟨bpath, [("kanban-plugin", v)], bcols⟩,
      hasChar s '\n' = false := by
    intro s hs
    rw [hshape] at hs
    rcases List.mem_cons.mp hs with rfl | hs
    · decide
    rcases List.mem_cons.mp hs with rfl | hs
    · decide
    rcases List.mem_cons.mp hs with rfl | hs
    · exact hkpNoNl
    rcases List.mem_cons.mp hs with rfl | hs
    · decide
    rcases List.mem_cons.mp hs with rfl | hs
    · decide
    exact htailNoNl s hs
  have hsplit1 : splitNl (serializeKanban ⟨bpath, [("kanban-plugin", v)], bcols⟩) =
      serializeLines ⟨bpath, [("kanban-plugin", v)], bcols⟩ :=
    splitNl_joinNl _ (by rw [hshape]; exact List.cons_ne_nil _ _) hallNoNl
  have hfind : findIdxFrom (· = "---") ("" :: ("kanban-plugin: " ++ v) :: "" :: "---" :: "" ::
      (columnsLines bcols ++ settingsTrailer [("kanban-plugin", v)])) = some 3 := by
    rw [findIdxFrom_cons_neg _ _ _ (by decide),
        findIdxFrom_cons_neg _ _ _ (decide_eq_false hv2),
        findIdxFrom_cons_neg _ _ _ (by decide),
        findIdxFrom_cons_pos _ _ _ (by decide)]
    rfl
  have hms := matterSplit_eq (serializeKanban ⟨bpath, [("kanban-plugin", v)], bcols⟩)
      "---" _ 3 (hshape ▸ hsplit1) rfl hfind
  constructor
  · have hcolproj : ∀ x, (parseKanban x).columns =
        parseKanbanLines (splitNl (matterSplit x).2) none [] := fun _ => rfl
    rw [hcolproj, hms]
    have hsplit2 : splitNl (joinNl ("" :: (columnsLines bcols ++
        settingsTrailer [("kanban-plugin", v)]))) =
        "" :: (columnsLines bcols ++ settingsTrailer [("kanban-plugin", v)]) :=
      splitNl_joinNl _ (List.cons_ne_nil _ _) htailNoNl
    show parseKanbanLines (splitNl (joinNl ("" :: (columnsLines bcols ++
        settingsTrailer [("kanban-plugin", v)])))) none [] = bcols
    rw [hsplit2, parseLines_blank,
      parseLines_columns bcols (settingsTrailer [("kanban-plugin", v)]) none [] hcols'
        (fun cur acc => parseLines_stop _ _ cur acc rfl rfl (by decide))]
    rfl
  · have hsetproj : ∀ x, (parseKanban x).settings =
        buildSettings (matterSplit x).1 := fun _ => rfl
    rw [hsetproj, hms]
    show buildSettings (parseFrontmatterLines ["", "kanban-plugin: " ++ v, ""]) = _
    rw [parseFrontmatter_kp v hv3, buildSettings_kp v hv4]

/-- **C1 (counterexample).** The round trip fails as claimed: the column name
`a⟨U+2028⟩b` passes `validateColumnName` (U+2028 is neither an ASCII control
character nor LF/CR), but the JavaScript regex `.` in `/^##\s+(.+)$/` does
not match U+2028, so the serialized header line is inert on re-parse and the
column is lost. -/
theorem parseKanban_serializeKanban_u2028_fails :
    validateColumnName "a\u2028b" = .ok "a\u2028b" ∧
    (parseKanban (serializeKanban
      ⟨"", [("kanban-plugin", "basic")], [⟨"a\u2028b", []⟩]⟩)).columns = [] ∧
    ([⟨"a\u2028b", []⟩] : List Column) ≠ [] := by
  decide

/-- **C1 (amended).** For every board whose settings are exactly
`{'kanban-plugin': v}` with `v ∈ {basic, advanced}` and whose column names
and item texts are fixpoints of their validators **and contain no
U+2028/U+2029 line separators**, `parseKanban (serializeKanban b)` returns a
board with the same columns (names, item texts, completed flags, both orders)
and the same settings. -/
theorem parseKanban_serializeKanban_roundtrip (b : Board) (v : String)
    (hv : v = "basic" ∨ v = "advanced")
    (hset : b.settings = [("kanban-plugin", v)])
    (hcols : ∀ c ∈ b.columns, goodColumn c) :
    (parseKanban (serializeKanban b)).columns = b.columns ∧
    (parseKanban (serializeKanban b)).settings = b.settings := by
  rcases hv with rfl | rfl <;>
    exact roundtrip_core b _ hset hcols (by decide) (by decide) (by decide) (by decide)

instance (s : String) : Decidable (noLineSeps s) :=
  inferInstanceAs (Decidable (∀ c ∈ s.data, c ≠ '\u2028' ∧ c ≠ '\u2029'))

instance (i : Item) : Decidable (goodItem i) :=
  inferInstanceAs (Decidable (validateItemText i.text = .ok i.text ∧ noLineSeps i.text))

instance (c : Column) : Decidable (goodColumn c) :=
  inferInstanceAs (Decidable (validateColumnName c.name = .ok c.name ∧ noLineSeps c.name ∧
    ∀ i ∈ c.items, goodItem i))

/-- A concrete serializable board used by the round-trip witness. -/
def roundtripBoard : Board :=
  ⟨"/vault/b.md", [("kanban-plugin", "basic")],
   [⟨"Backlog", [⟨"Task 1", false⟩, ⟨"**Bold** task", true⟩]⟩, ⟨"Done", []⟩]⟩

/-- Witness for C1 at a concrete two-column board. -/
theorem parseKanban_serializeKanban_roundtrip_witness :
    (parseKanban (serializeKanban roundtripBoard)).columns = roundtripBoard.columns ∧
    (parseKanban (serializeKanban roundtripBoard)).settings = roundtripBoard.settings :=
  parseKanban_serializeKanban_roundtrip roundtripBoard "basic" (Or.inl rfl) rfl (by decide)
